import Mathlib

/-!
Verification of the reactive state-primitive library (signal patterns).

Shallow embedding of the library's state-bearing primitives:
createResource, createDebouncedSignal, createHistorySignal,
createPersistentStore, computedWithPrevious, createSignalSet and
createSignalWithMiddleware.  Signals are modelled as plain values held in
explicit state records; the host runtime's effect contract ("the effect
body runs once immediately at registration and again after any tracked
dependency changes, re-runs being scheduled after the triggering
synchronous span") is reflected in how construction and deferred work are
modelled.  Asynchronous completions and timer firings are modelled as
explicit events interleaved with synchronous writes, which matches the
single-threaded event-loop scheduling model of the host.
-/

namespace Signals

/-! ### Async Resource Loader (`createResource`)

The resource holds three signals `data`, `loading`, `error`.  A fourth
signal `refreshTrigger` only exists to re-run the registered effect.  The
effect body synchronously performs `loading.set(true); error.set(null)`
and invokes the producer `fetchFn()`; the continuation after the `await`
performs `data.set(result)` (success) or `error.set(e)` (failure) and in
both cases `loading.set(false)`.

We model the observable state plus bookkeeping: `started` counts producer
invocations (one per effect run), `completed` records which runs'
continuations have already executed.  Events are: `refresh` (one run of
the effect body's synchronous prefix, triggered by `refresh()`), and the
arrival of run `i`'s continuation, successful or failing.  The code has
no generation token: a continuation executes its three `set` calls
whenever it arrives. -/

structure ResState (T E : Type) where
  data : Option T
  loading : Bool
  error : Option E
  started : Nat
  completed : List Nat
deriving DecidableEq

inductive REvent (T E : Type) where
  | refresh : REvent T E
  | completeOk : Nat → T → REvent T E
  | completeErr : Nat → E → REvent T E
deriving DecidableEq

/-- One event of the resource state machine, transcribed from the effect
body of `createResource`: a refresh run sets `loading := true`,
`error := null` and starts one more producer invocation; a completion of
run `i` writes exactly one of `data`/`error` and always clears
`loading`, with no staleness check. -/
def rstep {T E : Type} (s : ResState T E) : REvent T E → ResState T E
  | .refresh =>
      { s with loading := true, error := none, started := s.started + 1 }
  | .completeOk i v =>
      { s with data := some v, loading := false, completed := i :: s.completed }
  | .completeErr i e =>
      { s with error := some e, loading := false, completed := i :: s.completed }

/-- The signal values given to `signal(...)` inside `createResource`,
before the registered effect has run. -/
def resourceInit (T E : Type) : ResState T E :=
  { data := none, loading := false, error := none, started := 0, completed := [] }

/-- State of a resource right after `createResource` returns: the effect
registered during construction has performed its first run (the host
contract runs an effect body once at registration), which is the same
synchronous prefix a `refresh()` triggers. -/
def createResourceState (T E : Type) : ResState T E :=
  rstep (resourceInit T E) .refresh

/-- An event is admissible in a state when it completes only a run that
was actually started and has not completed yet (each producer invocation
settles exactly once). -/
def validEvent {T E : Type} (s : ResState T E) : REvent T E → Bool
  | .refresh => true
  | .completeOk i _ => decide (i < s.started) && decide (i ∉ s.completed)
  | .completeErr i _ => decide (i < s.started) && decide (i ∉ s.completed)

def validTrace {T E : Type} (s : ResState T E) : List (REvent T E) → Bool
  | [] => true
  | e :: es => validEvent s e && validTrace (rstep s e) es

def runTrace {T E : Type} (s : ResState T E) (es : List (REvent T E)) : ResState T E :=
  es.foldl rstep s

/-- Does the trace contain any successful completion? -/
def hasSuccess {T E : Type} (es : List (REvent T E)) : Bool :=
  es.any fun e => match e with
    | .completeOk _ _ => true
    | _ => false

/-- Invariant maintained by every admissible trace: completed run ids
are genuine run ids, and while `loading` is true the most recently
started run is still in flight and `error` is null. -/
def ResInv {T E : Type} (s : ResState T E) : Prop :=
  (∀ i ∈ s.completed, i < s.started) ∧
  (s.loading = true →
    s.error = none ∧ 0 < s.started ∧ s.started - 1 ∉ s.completed)

theorem rstep_preserves_inv {T E : Type} (s : ResState T E) (e : REvent T E)
    (hinv : ResInv s) (hval : validEvent s e = true) : ResInv (rstep s e) := by
  obtain ⟨hc, _⟩ := hinv
  cases e with
  | refresh =>
      refine ⟨?_, ?_⟩
      · intro i hi
        exact Nat.lt_succ_of_lt (hc i hi)
      · intro _
        refine ⟨rfl, Nat.succ_pos _, ?_⟩
        simp only [rstep, Nat.add_sub_cancel]
        intro hmem
        exact absurd (hc _ hmem) (Nat.lt_irrefl _)
  | completeOk i v =>
      simp only [validEvent, Bool.and_eq_true, decide_eq_true_eq] at hval
      refine ⟨?_, ?_⟩
      · intro j hj
        simp only [rstep, List.mem_cons] at hj
        cases hj with
        | inl h => exact h ▸ hval.1
        | inr h => exact hc j h
      · intro h
        simp [rstep] at h
  | completeErr i e0 =>
      simp only [validEvent, Bool.and_eq_true, decide_eq_true_eq] at hval
      refine ⟨?_, ?_⟩
      · intro j hj
        simp only [rstep, List.mem_cons] at hj
        cases hj with
        | inl h => exact h ▸ hval.1
        | inr h => exact hc j h
      · intro h
        simp [rstep] at h

theorem runTrace_preserves_inv {T E : Type} (es : List (REvent T E)) :
    ∀ s : ResState T E, ResInv s → validTrace s es = true → ResInv (runTrace s es) := by
  induction es with
  | nil => intro s h _; exact h
  | cons e es ih =>
      intro s h hv
      simp only [validTrace, Bool.and_eq_true] at hv
      exact ih (rstep s e) (rstep_preserves_inv s e h hv.1) hv.2

theorem runTrace_data_of_no_success {T E : Type} (es : List (REvent T E)) :
    ∀ s : ResState T E, hasSuccess es = false → (runTrace s es).data = s.data := by
  induction es with
  | nil => intro s _; rfl
  | cons e es ih =>
      intro s h
      simp only [hasSuccess, List.any_cons, Bool.or_eq_false_iff] at h
      have h2 : hasSuccess es = false := h.2
      cases e with
      | refresh => simpa [runTrace, rstep] using ih (rstep s .refresh) h2
      | completeOk i v => simp [hasSuccess] at h
      | completeErr i e0 =>
          simpa [runTrace, rstep] using ih (rstep s (.completeErr i e0)) h2

/-! Claim theorems for the Async Resource Loader. -/

/-- C1: the claim says a resource starts with `data() = null`,
`loading() = false`, `error() = null` and that the producer is not
invoked until the first `refresh()`.  On the code, the effect registered
inside `createResource` runs once at registration (host effect
contract), and that run already performs `loading.set(true)` and invokes
the producer: immediately after construction, before any `refresh()`
call, `loading` is true and one producer invocation has started.  The
lazy behaviour the claim states is the documented intent (the repo's
deep-dive doc loads only on an explicit call, and the demo wires loading
to a button); the eager effect run is a slip in the code. -/
theorem createResource_initial_run_loads :
    (createResourceState Nat Nat).data = none ∧
    (createResourceState Nat Nat).error = none ∧
    (createResourceState Nat Nat).loading = true ∧
    (createResourceState Nat Nat).started = 1 := by
  decide

/-- C2 counterexample: the claim demands that `data()` and `error()` are
both null whenever `loading()` is true, and that after every completed
load at most one of them is non-null.  Concrete admissible trace from
the construction state (run 0 already in flight): run 0 succeeds with
value 5, then `refresh()` starts run 1 — now `loading` is true while
`data = some 5`; then run 1 fails with error 9 — now `data = some 5`
and `error = some 9` are simultaneously non-null after a completed
load.  The code never clears `data` when starting or failing a load. -/
theorem resource_invariant_counterexample :
    validTrace (createResourceState Nat Nat)
      [.completeOk 0 5, .refresh, .completeErr 1 9] = true ∧
    (runTrace (createResourceState Nat Nat) [.completeOk 0 5, .refresh]).loading = true ∧
    (runTrace (createResourceState Nat Nat) [.completeOk 0 5, .refresh]).data = some 5 ∧
    (runTrace (createResourceState Nat Nat)
      [.completeOk 0 5, .refresh, .completeErr 1 9]).data = some 5 ∧
    (runTrace (createResourceState Nat Nat)
      [.completeOk 0 5, .refresh, .completeErr 1 9]).error = some 9 ∧
    (runTrace (createResourceState Nat Nat)
      [.completeOk 0 5, .refresh, .completeErr 1 9]).loading = false := by
  decide

/-- C2 amended: along every admissible event sequence, `loading()` is
true only strictly between the start of the most recent load and the
next completion (the most recently started load is still in flight), and
`error()` is null whenever `loading()` is true; `data()` is null until
the first successful completion.  However `data()` persists across later
loads, so `data()` may be non-null while `loading()` is true, and after
a failed load that follows an earlier successful one both `data()` and
`error()` are non-null. -/
theorem resource_invariant_amended (T E : Type) (es : List (REvent T E))
    (h : validTrace (createResourceState T E) es = true) :
    ((runTrace (createResourceState T E) es).loading = true →
      (runTrace (createResourceState T E) es).error = none ∧
      0 < (runTrace (createResourceState T E) es).started ∧
      (runTrace (createResourceState T E) es).started - 1 ∉
        (runTrace (createResourceState T E) es).completed) ∧
    (hasSuccess es = false → (runTrace (createResourceState T E) es).data = none) := by
  have hinit : ResInv (createResourceState T E) := by
    refine ⟨?_, ?_⟩
    · intro i hi
      simp [createResourceState, rstep, resourceInit] at hi
    · intro _
      refine ⟨rfl, Nat.one_pos, ?_⟩
      simp [createResourceState, rstep, resourceInit]
  have hpres := runTrace_preserves_inv es (createResourceState T E) hinit h
  refine ⟨hpres.2, ?_⟩
  intro hs
  have hdata := runTrace_data_of_no_success es (createResourceState T E) hs
  rw [hdata]
  rfl

/-- Witness for `resource_invariant_amended` at a concrete trace:
construction (run 0 in flight), run 0 fails, `refresh()` starts run 1. -/
theorem resource_invariant_amended_witness :
    ((runTrace (createResourceState Nat Nat) [.completeErr 0 7, .refresh]).loading = true →
      (runTrace (createResourceState Nat Nat) [.completeErr 0 7, .refresh]).error = none ∧
      0 < (runTrace (createResourceState Nat Nat) [.completeErr 0 7, .refresh]).started ∧
      (runTrace (createResourceState Nat Nat) [.completeErr 0 7, .refresh]).started - 1 ∉
        (runTrace (createResourceState Nat Nat) [.completeErr 0 7, .refresh]).completed) ∧
    (hasSuccess [REvent.completeErr (E := Nat) (T := Nat) 0 7, .refresh] = false →
      (runTrace (createResourceState Nat Nat) [.completeErr 0 7, .refresh]).data = none) :=
  resource_invariant_amended Nat Nat [.completeErr 0 7, .refresh] (by decide)

/-- C3 counterexample: the claim says the completion of the most
recently started load wins and a stale completion is discarded via a
generation token.  Concrete admissible trace: run 0 starts at
construction, `refresh()` starts run 1, run 1 completes with 42, then
run 0's stale completion arrives with 7 — and overwrites `data`, which
ends at `some 7`, not at the latest run's `some 42`.  There is no
generation token anywhere in `createResource`. -/
theorem resource_stale_completion_counterexample :
    validTrace (createResourceState Nat Nat)
      [.refresh, .completeOk 1 42, .completeOk 0 7] = true ∧
    (runTrace (createResourceState Nat Nat) [.refresh, .completeOk 1 42]).data = some 42 ∧
    (runTrace (createResourceState Nat Nat)
      [.refresh, .completeOk 1 42, .completeOk 0 7]).data = some 7 := by
  decide

/-- C3 amended: there is no stale-response guard; a completion is
applied unconditionally on arrival, whatever its run id, so the
completion that arrives last wins: it overwrites `data` (respectively
`error`) and forces `loading` to false even when it belongs to an
earlier-started load. -/
theorem resource_last_completion_wins (T E : Type) (s : ResState T E)
    (i : Nat) (v : T) (e : E) :
    (rstep s (.completeOk i v)).data = some v ∧
    (rstep s (.completeOk i v)).loading = false ∧
    (rstep s (.completeErr i e)).error = some e ∧
    (rstep s (.completeErr i e)).loading = false :=
  ⟨rfl, rfl, rfl, rfl⟩

/-! ### Bounded History Log (`createHistorySignal`)

State: the `history` array signal and the `currentIndex` signal.
`setValue` slices history up to `currentIndex + 1`, pushes the new
value, then either evicts the oldest entry (`shift`, leaving the index
in place) when the capped length is exceeded, or advances the index. -/

structure HistoryState (T : Type) where
  history : List T
  currentIndex : Nat
deriving DecidableEq

/-- Initial history state: `history = [initialValue]`, index 0. -/
def createHistorySignal {T : Type} (initialValue : T) : HistoryState T :=
  { history := [initialValue], currentIndex := 0 }

/-- `setValue` from the source: truncate redo history, append, then
evict the oldest entry when `maxHistory` is exceeded (index unchanged)
or advance the index. -/
def setValue {T : Type} (maxHistory : Nat) (s : HistoryState T) (newValue : T) :
    HistoryState T :=
  let newHistory := s.history.take (s.currentIndex + 1) ++ [newValue]
  if maxHistory < newHistory.length then
    { history := newHistory.drop 1, currentIndex := s.currentIndex }
  else
    { history := newHistory, currentIndex := s.currentIndex + 1 }

/-- A sequence of `setValue` calls with no undo/redo in between. -/
def applyWrites {T : Type} (maxHistory : Nat) (s : HistoryState T) (vs : List T) :
    HistoryState T :=
  vs.foldl (setValue maxHistory) s

theorem setValue_length_index {T : Type} (k : Nat) (s : HistoryState T) (v : T)
    (h : s.currentIndex + 1 = s.history.length) :
    (setValue k s v).currentIndex + 1 = (setValue k s v).history.length ∧
    (setValue k s v).history.length =
      if s.history.length < k then s.history.length + 1 else s.history.length := by
  have htake : s.history.take (s.currentIndex + 1) = s.history := by
    rw [h]
    exact List.take_length s.history
  have hlen : (s.history.take (s.currentIndex + 1) ++ [v]).length = s.history.length + 1 := by
    rw [htake]
    simp
  simp only [setValue]
  by_cases hk : k < (s.history.take (s.currentIndex + 1) ++ [v]).length
  · rw [if_pos hk]
    rw [hlen] at hk
    have hnk : ¬ s.history.length < k := by omega
    rw [if_neg hnk]
    refine ⟨?_, ?_⟩ <;> simp [List.length_drop, hlen]
    omega
  · rw [if_neg hk]
    rw [hlen] at hk
    have hyk : s.history.length < k := by omega
    rw [if_pos hyk]
    refine ⟨?_, ?_⟩ <;> simp [hlen]
    omega

theorem applyWrites_length {T : Type} (k : Nat) (vs : List T) :
    ∀ s : HistoryState T, s.currentIndex + 1 = s.history.length →
      (applyWrites k s vs).history.length =
        min (s.history.length + vs.length) (max k s.history.length) := by
  induction vs with
  | nil =>
      intro s _
      simp [applyWrites]
  | cons v vs ih =>
      intro s hs
      obtain ⟨hidx, hlen⟩ := setValue_length_index k s v hs
      have := ih (setValue k s v) hidx
      simp only [applyWrites, List.foldl_cons] at this ⊢
      rw [this, hlen]
      by_cases hk : s.history.length < k
      · simp only [if_pos hk, List.length_cons]
        omega
      · simp only [if_neg hk, List.length_cons]
        omega

/-- C6 counterexample: the claim says that for every capacity `k` and
every `n ≤ k`, after `n` writes `history().length = n + 1`.  Take
`k = 1`, initial value 0 and one write of 1 (`n = 1 ≤ k`): the push
makes the array length 2, which exceeds `maxHistory = 1`, so the oldest
entry is evicted and the history has length 1, not `n + 1 = 2`.  The
eviction already fires on the `k`-th write, because the initial value
occupies one slot. -/
theorem history_capacity_counterexample :
    1 ≤ 1 ∧
    applyWrites 1 (createHistorySignal (0 : Nat)) [1] =
      { history := [1], currentIndex := 0 } := by
  decide

/-- C6 amended: counting the initial value, after `n` setValue calls on
a history signal with capacity `k` (and no undo/redo in between)
`history().length = min (n + 1) (max k 1)`: it is `n + 1` only while
`n ≤ k - 1`; the `k`-th and every later write evicts the oldest entry,
pinning the length at `k` (at 1 when `k = 0`). -/
theorem history_length_amended (T : Type) (k : Nat) (v0 : T) (vs : List T) :
    (applyWrites k (createHistorySignal v0) vs).history.length =
      min (vs.length + 1) (max k 1) := by
  have h := applyWrites_length k vs (createHistorySignal v0) (by rfl)
  rw [h]
  simp only [createHistorySignal, List.length_singleton]
  omega

/-! ### Durable Store Adapter (`createPersistentStore`)

The host's JSON codec is modelled by two caller-level parameters:
`decode : String → Except Err T` standing for `JSON.parse` (which throws
on malformed input) and `encode : T → Except Err String` standing for
`JSON.stringify` (which throws e.g. on circular values).  The external
store's record under `key` is an `Option String`.

Construction runs `const stored = localStorage.getItem(key);
const initial = stored ? JSON.parse(stored) : initialValue` — note the
JavaScript truthiness test: both an absent record (`null`) and an
empty-string record fall back to the default, while any other record is
fed to `JSON.parse` with no try/catch around it, so a parse exception
escapes from the constructor. -/

/-- The initial in-memory value computed by `createPersistentStore`,
propagating any `JSON.parse` exception (`Except.error`). -/
def persistentStoreInit {T Err : Type} (decode : String → Except Err T)
    (stored : Option String) (initialValue : T) : Except Err T :=
  match stored with
  | none => .ok initialValue
  | some s => if s = "" then .ok initialValue else decode s

/-- In-memory cell plus the persisted record under the store's key. -/
structure PStoreState (T : Type) where
  state : T
  storedVal : Option String
deriving DecidableEq

/-- The caller-visible body of `set`: it is exactly
`(value) => state.set(value)` — no serialization happens inside it, so
it is a total function that always returns normally. -/
def pstoreSet {T : Type} (s : PStoreState T) (v : T) : PStoreState T :=
  { s with state := v }

/-- The caller-visible body of `update`:
`(updater) => state.update(updater)`. -/
def pstoreUpdate {T : Type} (s : PStoreState T) (f : T → T) : PStoreState T :=
  pstoreSet s (f s.state)

/-- The auto-save effect
`effect(() => localStorage.setItem(key, JSON.stringify(state())))`,
which the host schedules after the synchronous span that performed the
write.  If `JSON.stringify` throws, the exception surfaces inside the
effect (returned here as `some err`) and the `setItem` call is never
reached, leaving the persisted record unchanged. -/
def persistEffect {T Err : Type} (encode : T → Except Err String)
    (s : PStoreState T) : PStoreState T × Option Err :=
  match encode s.state with
  | .ok str => ({ s with storedVal := some str }, none)
  | .error e => (s, some e)

/-- A concrete decoder standing for `JSON.parse` on `Nat` records: it
succeeds only on the record `"1"` and throws on everything else, as
`JSON.parse` does on malformed input. -/
def decodeNatOne : String → Except String Nat :=
  fun s => if s = "1" then .ok 1 else .error "SyntaxError"

/-- A concrete encoder standing for `JSON.stringify` on `Nat` values
that fails on the value 1 (as `JSON.stringify` throws on a
non-serializable value) and succeeds elsewhere. -/
def encodeNatBad : Nat → Except String String :=
  fun n => if n = 1 then .error "TypeError" else .ok "0"

/-- C4 counterexample: the claim says a stored record that fails to
parse is treated exactly like an absent one — `state()` equals the
default and construction does not throw.  On the code there is no
try/catch around `JSON.parse`: with the malformed record `"oops"` (on
which the decoder throws a SyntaxError) construction propagates the
exception instead of producing the default 0, while an absent record
does produce the default. -/
theorem persistent_parse_failure_counterexample :
    persistentStoreInit decodeNatOne (some "oops") 0 = .error "SyntaxError" ∧
    persistentStoreInit decodeNatOne none 0 = .ok 0 := by
  constructor <;> rfl

/-- C4 amended: at construction, if the external store holds no record
under the key, or holds an empty-string record (both falsy in the
truthiness test), `state()` equals the caller-supplied default and
construction succeeds; if it holds any other record, the record is
parsed with no exception handler: a well-formed record supersedes the
default and a parse failure propagates out of the constructor. -/
theorem persistent_construction_amended (T Err : Type)
    (decode : String → Except Err T) (dflt : T) (s : String) (h : s ≠ "") :
    persistentStoreInit decode none dflt = .ok dflt ∧
    persistentStoreInit decode (some "") dflt = .ok dflt ∧
    persistentStoreInit decode (some s) dflt = decode s := by
  refine ⟨rfl, rfl, ?_⟩
  simp [persistentStoreInit, h]

/-- Witness for `persistent_construction_amended` on the concrete
decoder and the well-formed record `"1"`. -/
theorem persistent_construction_amended_witness :
    persistentStoreInit decodeNatOne none 0 = .ok 0 ∧
    persistentStoreInit decodeNatOne (some "") 0 = .ok 0 ∧
    persistentStoreInit decodeNatOne (some "1") 0 = decodeNatOne "1" :=
  persistent_construction_amended Nat String decodeNatOne 0 "1" (by decide)

/-- C5 counterexample: the claim says a serialization failure on
`set(v)` propagates to the caller of `set` and skips the store write.
On the code `set` is `(value) => state.set(value)` — it performs no
serialization and returns normally whatever the value, committing it to
the in-memory cell.  With state 0 persisted as `"0"` and the
unserializable value 1 (`encodeNatBad 1` throws a TypeError):
`set(1)` returns normally with in-memory state 1, and the exception only
surfaces later inside the deferred auto-save effect, which leaves the
persisted record at `"0"` — nothing ever reaches the caller of `set`. -/
theorem persistent_encode_failure_counterexample :
    encodeNatBad 1 = .error "TypeError" ∧
    pstoreSet { state := 0, storedVal := some "0" } 1 =
      { state := 1, storedVal := some "0" } ∧
    persistEffect encodeNatBad { state := 1, storedVal := some "0" } =
      ({ state := 1, storedVal := some "0" }, some "TypeError") := by
  refine ⟨rfl, rfl, ?_⟩
  rfl

/-- C5 amended: a serialization failure surfaces inside the deferred
persistence effect, not at the caller of `set`/`update`: `set(v)`
(and `update(fn)`, which delegates to the same cell write) always
returns normally after committing the new value to the in-memory state;
when encoding the committed value fails, the store write is skipped, the
persisted record keeps its previous value (now disagreeing with the
in-memory state) and the error is confined to the effect. -/
theorem persistent_write_amended (T Err : Type) (encode : T → Except Err String)
    (s : PStoreState T) (v : T) (e : Err) (f : T → T) (h : encode v = .error e) :
    pstoreSet s v = { state := v, storedVal := s.storedVal } ∧
    pstoreUpdate s f = pstoreSet s (f s.state) ∧
    persistEffect encode (pstoreSet s v) =
      ({ state := v, storedVal := s.storedVal }, some e) := by
  refine ⟨rfl, rfl, ?_⟩
  simp [persistEffect, pstoreSet, h]

/-- Witness for `persistent_write_amended` at the failing value 1. -/
theorem persistent_write_amended_witness :
    pstoreSet { state := 0, storedVal := some "0" } 1 =
      { state := 1, storedVal := some "0" } ∧
    pstoreUpdate { state := 0, storedVal := some "0" } (fun n => n + 2) =
      pstoreSet { state := 0, storedVal := some "0" } (0 + 2) ∧
    persistEffect encodeNatBad (pstoreSet { state := 0, storedVal := some "0" } 1) =
      ({ state := 1, storedVal := some "0" }, some "TypeError") :=
  persistent_write_amended Nat String encodeNatBad
    { state := 0, storedVal := some "0" } 1 "TypeError" (fun n => n + 2) (by rfl)

/-! ### Interception Pipeline (`createSignalWithMiddleware`)

`wrapper.set(value)` reads `prev = innerSignal()` once, then runs
`for (const fn of middleware) processedValue = fn(processedValue, prev)`
and commits `processedValue` to the inner signal through its own
equality-gated write (whose resulting cell value is the committed value
either way). -/

/-- The value committed to the inner signal by `wrapper.set`: the
middleware loop from the source, a left fold that feeds each function's
output to the next while every function receives the single pre-write
`prev`. -/
def middlewareSet {T : Type} (middleware : List (T → T → T)) (prev value : T) : T :=
  middleware.foldl (fun processed fn => fn processed prev) value

/-- Modelled from the spec's words for comparison: the left-to-right
fold `fm(...f2(f1(v, prev), prev)..., prev)` written as plain recursion
over the function list. -/
def specPipelineFold {T : Type} : List (T → T → T) → T → T → T
  | [], v, _ => v
  | f :: fs, v, prev => specPipelineFold fs (f v prev) prev

/-- `validationMiddleware` from the source: returns the proposed value
when the validator accepts it and the previous value otherwise. -/
def validationMiddleware {T : Type} (validator : T → Bool) : T → T → T :=
  fun value prev => if validator value then value else prev

theorem middlewareSet_eq_specFold {T : Type} (fs : List (T → T → T)) :
    ∀ v prev : T, middlewareSet fs prev v = specPipelineFold fs v prev := by
  induction fs with
  | nil => intro v prev; rfl
  | cons f fs ih =>
      intro v prev
      simpa [middlewareSet, specPipelineFold] using ih (f v prev) prev

/-- C7: the value committed by `set(v)` on a middleware-wrapped signal
is the left-to-right fold of the middleware list over `v`, every
function receiving the single pre-write previous value; and in the
concrete scenario of one validator rejecting negative numbers with the
cell at 5, `set(-1)` commits 5 (the equality-gated inner write keeps the
cell at 5) while `set(10)` commits 10. -/
theorem middleware_pipeline_correct :
    (∀ (T : Type) (fs : List (T → T → T)) (v prev : T),
      middlewareSet fs prev v = specPipelineFold fs v prev) ∧
    middlewareSet [validationMiddleware (fun n : Int => decide (0 ≤ n))] 5 (-1) = 5 ∧
    middlewareSet [validationMiddleware (fun n : Int => decide (0 ≤ n))] 5 10 = 10 := by
  refine ⟨fun T fs v prev => middlewareSet_eq_specFold fs v prev, ?_, ?_⟩ <;> rfl

/-! ### Unique Keyed Collection (`createSignalSet`)

The items array signal, parameterized by the key extractor.  `add`
appends only when no present item shares the key; `remove` filters out
every item sharing the key; `toggle` is `has ? remove : add`.  The
constructor stores the caller's `initial` array as is. -/

def sigSetHas {T K : Type} [DecidableEq K] (keyFn : T → K) (items : List T)
    (item : T) : Bool :=
  items.any fun i => decide (keyFn i = keyFn item)

def sigSetAdd {T K : Type} [DecidableEq K] (keyFn : T → K) (items : List T)
    (item : T) : List T :=
  if sigSetHas keyFn items item then items else items ++ [item]

def sigSetRemove {T K : Type} [DecidableEq K] (keyFn : T → K) (items : List T)
    (item : T) : List T :=
  items.filter fun i => decide (keyFn i ≠ keyFn item)

def sigSetToggle {T K : Type} [DecidableEq K] (keyFn : T → K) (items : List T)
    (item : T) : List T :=
  if sigSetHas keyFn items item then sigSetRemove keyFn items item
  else sigSetAdd keyFn items item

/-- The mutating calls the claim quantifies over. -/
inductive SetOp (T : Type) where
  | add : T → SetOp T
  | toggle : T → SetOp T
deriving DecidableEq

def applySetOps {T K : Type} [DecidableEq K] (keyFn : T → K) (items : List T) :
    List (SetOp T) → List T
  | [] => items
  | .add x :: ops => applySetOps keyFn (sigSetAdd keyFn items x) ops
  | .toggle x :: ops => applySetOps keyFn (sigSetToggle keyFn items x) ops

/-- No two elements of the array have the same extracted key. -/
def uniqueKeys {T K : Type} (keyFn : T → K) (items : List T) : Prop :=
  (items.map keyFn).Nodup

theorem sigSetAdd_uniqueKeys {T K : Type} [DecidableEq K] (keyFn : T → K)
    (items : List T) (x : T) (h : uniqueKeys keyFn items) :
    uniqueKeys keyFn (sigSetAdd keyFn items x) := by
  unfold sigSetAdd
  by_cases hx : sigSetHas keyFn items x = true
  · rw [if_pos hx]; exact h
  · rw [if_neg hx]
    unfold uniqueKeys at h ⊢
    rw [List.map_append]
    simp only [List.map_singleton]
    rw [List.nodup_append]
    refine ⟨h, List.nodup_singleton _, ?_⟩
    intro a ha hb
    simp only [List.mem_singleton] at hb
    subst hb
    simp only [List.mem_map] at ha
    obtain ⟨i, hi, hk⟩ := ha
    apply hx
    simp only [sigSetHas, List.any_eq_true, decide_eq_true_eq]
    exact ⟨i, hi, hk⟩

theorem sigSetRemove_uniqueKeys {T K : Type} [DecidableEq K] (keyFn : T → K)
    (items : List T) (x : T) (h : uniqueKeys keyFn items) :
    uniqueKeys keyFn (sigSetRemove keyFn items x) := by
  unfold uniqueKeys at h ⊢
  exact List.Nodup.sublist (List.Sublist.map keyFn (List.filter_sublist items)) h

theorem sigSetToggle_uniqueKeys {T K : Type} [DecidableEq K] (keyFn : T → K)
    (items : List T) (x : T) (h : uniqueKeys keyFn items) :
    uniqueKeys keyFn (sigSetToggle keyFn items x) := by
  unfold sigSetToggle
  by_cases hx : sigSetHas keyFn items x = true
  · rw [if_pos hx]; exact sigSetRemove_uniqueKeys keyFn items x h
  · rw [if_neg hx]; exact sigSetAdd_uniqueKeys keyFn items x h

/-- C9 counterexample: the claim quantifies over every signal set, but
`createSignalSet` stores the caller's `initial` array without
deduplicating it: with `keyFn` the identity and initial items `[1, 1]`,
after the sequence `[add 2]` the items are `[1, 1, 2]`, which contains
two elements with equal extracted keys. -/
theorem sigset_duplicate_initial_counterexample :
    applySetOps (fun n : Nat => n) [1, 1] [.add 2] = [1, 1, 2] ∧
    ¬ uniqueKeys (fun n : Nat => n) (applySetOps (fun n : Nat => n) [1, 1] [.add 2]) := by
  constructor
  · rfl
  · intro h
    unfold uniqueKeys at h
    have he : applySetOps (fun n : Nat => n) [1, 1] [.add 2] = [1, 1, 2] := rfl
    rw [he] at h
    simp at h

/-- C9 amended: provided the initial items have pairwise distinct
extracted keys (the default empty initial trivially does), after any
sequence of `add` and `toggle` calls `items()` never contains two
elements whose keys under `keyFn` are equal; an `initial` array passed
to the constructor is not deduplicated, so duplicate keys in it survive
until the first `toggle`/`remove` of that key. -/
theorem sigset_unique_amended (T K : Type) [DecidableEq K] (keyFn : T → K)
    (ops : List (SetOp T)) :
    ∀ items : List T, uniqueKeys keyFn items →
      uniqueKeys keyFn (applySetOps keyFn items ops) := by
  induction ops with
  | nil => intro items h; exact h
  | cons op ops ih =>
      intro items h
      cases op with
      | add x => exact ih _ (sigSetAdd_uniqueKeys keyFn items x h)
      | toggle x => exact ih _ (sigSetToggle_uniqueKeys keyFn items x h)

/-- Witness for `sigset_unique_amended`: from the default empty initial,
the sequence add 1, toggle 2, toggle 1, add 2 keeps keys unique. -/
theorem sigset_unique_amended_witness :
    uniqueKeys (fun n : Nat => n)
      (applySetOps (fun n : Nat => n) [] [.add 1, .toggle 2, .toggle 1, .add 2]) :=
  sigset_unique_amended Nat Nat (fun n => n)
    [.add 1, .toggle 2, .toggle 1, .add 2] [] (by simp [uniqueKeys])

/-! ### Previous-Value Derivation (`computedWithPrevious`)

The closure keeps `previousValue` in a mutable binding.  The computed
body reads the source, calls `computeFn(current, previousValue)` and
only afterwards assigns `previousValue = current`.  A throwing
`computeFn` is modelled by an `Except`-valued function; since the
assignment textually follows the call, an exception leaves the
remembered value untouched and propagates to the reader. -/

/-- One run of the computed body: returns the propagated result of
`computeFn` together with the remembered value after the run. -/
def computedWithPreviousStep {T R Err : Type}
    (computeFn : T → Option T → Except Err R) (current : T)
    (previousValue : Option T) : Except Err R × Option T :=
  match computeFn current previousValue with
  | .ok result => (.ok result, some current)
  | .error e => (.error e, previousValue)

/-- C10: when `computeFn` throws during a recomputation, the exception
propagates to the reader and the remembered previous value is left at
its prior value, so a retried read (source unchanged) invokes
`computeFn` with the same `(current, previous)` pair and reproduces the
same outcome. -/
theorem computedWithPrevious_error_propagation (T R Err : Type)
    (computeFn : T → Option T → Except Err R) (current : T)
    (previousValue : Option T) (e : Err)
    (h : computeFn current previousValue = .error e) :
    computedWithPreviousStep computeFn current previousValue = (.error e, previousValue) ∧
    computedWithPreviousStep computeFn current
        (computedWithPreviousStep computeFn current previousValue).2 =
      computedWithPreviousStep computeFn current previousValue := by
  have h1 : computedWithPreviousStep computeFn current previousValue =
      (.error e, previousValue) := by
    simp [computedWithPreviousStep, h]
  refine ⟨h1, ?_⟩
  rw [h1]
  exact h1

/-- A concrete always-throwing compute function. -/
def boomFn : Nat → Option Nat → Except String Nat :=
  fun _ _ => Except.error "boom"

/-- Witness for `computedWithPrevious_error_propagation` at a concrete
always-throwing compute function. -/
theorem computedWithPrevious_error_propagation_witness :
    computedWithPreviousStep boomFn 4 (some 3) = (Except.error "boom", some 3) ∧
    computedWithPreviousStep boomFn 4 (computedWithPreviousStep boomFn 4 (some 3)).2 =
      computedWithPreviousStep boomFn 4 (some 3) :=
  computedWithPrevious_error_propagation Nat Nat String boomFn 4 (some 3) "boom" (by rfl)

/-! ### Debounced Relay (`createDebouncedSignal`)

The effect body runs at registration (time 0, with the initial value)
and on every write to `input`; each run clears the pending timeout and
schedules `output.set(value)` after `delayMs`.  Timed event-loop
embedding: time is a `Nat`; the state holds the output cell's value, the
pending timer as `some (fireTime, value)`, and the log of the output
cell's actual changes (the signal's write is equality-gated, so a write
of an equal value is not a change).  Before a write at time `t` is
processed, a pending timer whose fire time has already been reached has
fired; letting the system then go quiescent fires the remaining timer.
-/

structure DebState (T : Type) where
  output : T
  pending : Option (Nat × T)
  changes : List (Nat × T)
deriving DecidableEq

/-- `output.set(v)` at time `t`: equality-gated, so the value changes
(and the change is observable) only when `v` differs from the current
output value. -/
def setOutput {T : Type} [DecidableEq T] (t : Nat) (v : T) (s : DebState T) :
    DebState T :=
  if v = s.output then s
  else { s with output := v, changes := s.changes ++ [(t, v)] }

/-- Fire the pending timer if its fire time has been reached by `now`. -/
def fireIfDue {T : Type} [DecidableEq T] (now : Nat) (s : DebState T) : DebState T :=
  match s.pending with
  | none => s
  | some (tf, pv) => if tf ≤ now then { setOutput tf pv s with pending := none } else s

/-- One run of the effect body caused by a write `(t, v)` to `input`:
any already-due timer has fired beforehand; the run clears the pending
timeout (`clearTimeout`) and schedules `output.set(v)` at `t + d`
(`setTimeout`). -/
def debWrite {T : Type} [DecidableEq T] (d : Nat) (s : DebState T) (w : Nat × T) :
    DebState T :=
  { fireIfDue w.1 s with pending := some (w.1 + d, w.2) }

/-- State after `createDebouncedSignal(initialValue, d)` at time 0: the
effect's registration run has already scheduled `output.set(initial)` at
time `d`. -/
def debounceInit {T : Type} (d : Nat) (initialValue : T) : DebState T :=
  { output := initialValue, pending := some (d, initialValue), changes := [] }

/-- Let the event loop go quiescent: the remaining pending timer, if
any, fires at its scheduled time. -/
def debSettle {T : Type} [DecidableEq T] (s : DebState T) : DebState T :=
  match s.pending with
  | none => s
  | some (tf, pv) => { setOutput tf pv s with pending := none }

/-- The write sequence is temporally ordered and each write follows its
predecessor strictly less than `d` later. -/
def gapsOk {T : Type} (d : Nat) : List (Nat × T) → Bool
  | [] => true
  | [_] => true
  | (t1, _) :: (t2, v2) :: rest =>
      decide (t1 ≤ t2) && decide (t2 < t1 + d) && gapsOk d ((t2, v2) :: rest)

/-- The last write of a nonempty sequence. -/
def lastWrite {T : Type} (w : Nat × T) : List (Nat × T) → Nat × T
  | [] => w
  | w2 :: ws => lastWrite w2 ws

theorem debWrite_first {T : Type} [DecidableEq T] (d : Nat) (init : T) (w : Nat × T) :
    debWrite d (debounceInit d init) w =
      { output := init, pending := some (w.1 + d, w.2), changes := [] } := by
  unfold debWrite debounceInit fireIfDue setOutput
  by_cases hd : d ≤ w.1 <;> simp [hd]

theorem debWrite_chain {T : Type} [DecidableEq T] (d : Nat) (init : T)
    (ws : List (Nat × T)) :
    ∀ (tp : Nat) (vp : T), gapsOk d ((tp, vp) :: ws) = true →
      List.foldl (debWrite d)
          { output := init, pending := some (tp + d, vp), changes := [] } ws =
        { output := init,
          pending := some ((lastWrite (tp, vp) ws).1 + d, (lastWrite (tp, vp) ws).2),
          changes := [] } := by
  induction ws with
  | nil => intro tp vp _; rfl
  | cons w2 ws ih =>
      intro tp vp hg
      obtain ⟨t2, v2⟩ := w2
      simp only [gapsOk, Bool.and_eq_true, decide_eq_true_eq] at hg
      obtain ⟨⟨hle, hlt⟩, hrest⟩ := hg
      have hstep : debWrite d
          { output := init, pending := some (tp + d, vp), changes := [] } (t2, v2) =
          { output := init, pending := some (t2 + d, v2), changes := [] } := by
        unfold debWrite fireIfDue
        have : ¬ tp + d ≤ t2 := by omega
        simp [this]
      simp only [List.foldl_cons, hstep]
      simpa [lastWrite] using ih t2 v2 hrest

/-- C8: for every nonempty sequence of writes to the input in which
consecutive writes are strictly less than the delay `d` apart, the
output cell changes at most once — to the last written value, and not
before `d` after the last write: once the loop goes quiescent the
output equals the last written value, and the change log is empty when
that value equals the initial output value and otherwise the single
entry `(t_last + d, v_last)`. -/
theorem debounce_trailing_edge (T : Type) [DecidableEq T] (d : Nat) (init : T)
    (w : Nat × T) (ws : List (Nat × T)) (h : gapsOk d (w :: ws) = true) :
    (debSettle (List.foldl (debWrite d) (debounceInit d init) (w :: ws))).output =
      (lastWrite w ws).2 ∧
    (debSettle (List.foldl (debWrite d) (debounceInit d init) (w :: ws))).changes =
      (if (lastWrite w ws).2 = init then []
       else [((lastWrite w ws).1 + d, (lastWrite w ws).2)]) ∧
    (debSettle (List.foldl (debWrite d) (debounceInit d init) (w :: ws))).pending =
      none := by
  obtain ⟨t1, v1⟩ := w
  have hfold : List.foldl (debWrite d) (debounceInit d init) ((t1, v1) :: ws) =
      { output := init,
        pending := some ((lastWrite (t1, v1) ws).1 + d, (lastWrite (t1, v1) ws).2),
        changes := [] } := by
    simp only [List.foldl_cons, debWrite_first]
    exact debWrite_chain d init ws t1 v1 h
  rw [hfold]
  unfold debSettle setOutput
  by_cases he : (lastWrite (t1, v1) ws).2 = init <;> simp [he]

/-- Witness for `debounce_trailing_edge`: delay 3 and writes at times
0, 2, 4 (gaps 2 < 3) with values 1, 2, 5: the output ends at 5 with the
single change `(4 + 3, 5)`. -/
theorem debounce_trailing_edge_witness :
    gapsOk 3 [((0 : Nat), (1 : Nat)), (2, 2), (4, 5)] = true ∧
    ((debSettle (List.foldl (debWrite 3) (debounceInit 3 0)
        [((0 : Nat), (1 : Nat)), (2, 2), (4, 5)])).output =
      (lastWrite (0, 1) [(2, 2), (4, 5)]).2 ∧
    (debSettle (List.foldl (debWrite 3) (debounceInit 3 0)
        [((0 : Nat), (1 : Nat)), (2, 2), (4, 5)])).changes =
      (if (lastWrite (0, 1) [(2, 2), (4, 5)]).2 = 0 then []
       else [((lastWrite (0, 1) [(2, 2), (4, 5)]).1 + 3,
              (lastWrite (0, 1) [(2, 2), (4, 5)]).2)]) ∧
    (debSettle (List.foldl (debWrite 3) (debounceInit 3 0)
        [((0 : Nat), (1 : Nat)), (2, 2), (4, 5)])).pending = none) :=
  ⟨by decide, debounce_trailing_edge Nat 3 0 (0, 1) [(2, 2), (4, 5)] (by decide)⟩

end Signals
